import Mathlib

/-!
Shallow embedding of the ATS backend's core logic:
the Airtable record-store adapter (table-name resolution, numeric field
coercion, 10-records-per-page bulk-write chunking, filter-formula
construction), the board transform (`transformData`), the attachment
append/replace handlers, and the content-as-attachment storage naming.

Records are modelled as association lists of (field name, value) pairs with
JavaScript object semantics: keys are unique, insertion order is preserved,
property assignment replaces in place, `delete` removes the key.  Field
values are modelled by the tagged union `JVal` covering the value shapes
that occur in this system (strings, integer-valued numbers, booleans,
linked-record / lookup arrays, attachment lists, and a NaN marker for
failed numeric coercion).
-/

namespace ATS

/-- An Airtable attachment reference `{url, filename}`. -/
structure Attachment where
  url : String
  filename : String
deriving DecidableEq

/-- Field values, as a tagged union of the value shapes this system reads
and writes.  Numbers are modelled as integers; `nan` marks the result of a
failed numeric coercion. -/
inductive JVal where
  | str (s : String)
  | num (n : Int)
  | bool (b : Bool)
  | arrS (l : List String)
  | arrN (l : List Int)
  | att (l : List Attachment)
  | nan
deriving DecidableEq

/-- A record's `fields` bag: an ordered mapping from field name to value. -/
abbrev Fields := List (String × JVal)

/-- Read a field (JS property access): first pair with the given key. -/
def getField (fs : Fields) (k : String) : Option JVal :=
  match fs with
  | [] => none
  | (k', v) :: rest => if k' = k then some v else getField rest k

/-- JS property assignment: replace the value at the key in place, or append
the key at the end when absent. -/
def setField (fs : Fields) (k : String) (v : JVal) : Fields :=
  match fs with
  | [] => [(k, v)]
  | (k', v') :: rest => if k' = k then (k, v) :: rest else (k', v') :: setField rest k v

/-- JS `delete obj[k]`: remove the key. -/
def deleteField (fs : Fields) (k : String) : Fields :=
  match fs with
  | [] => []
  | (k', v) :: rest => if k' = k then deleteField rest k else (k', v) :: deleteField rest k

/-- A record as returned by the adapter: `{ id, fields }`. -/
structure Rec where
  id : String
  fields : Fields
deriving DecidableEq

/-- A creation payload record: `{ fields }` (no id yet). -/
structure FieldsRec where
  fields : Fields
deriving DecidableEq

/-! ## Table-name indirection (airtableService.js) -/

def MAIN_TABLE_NAME : String := "tblpIHBsPfZXu8IFs"
def COUNTER_TABLE_NAME : String := "tblS3ijjC5fBGTuPR"
def ACTIONS_TABLE_NAME : String := "tblKQ8MMZMirJduk7"
def ACTIVITIES_TABLE_NAME : String := "tblNQFudN16AwUKBM"
def TASKS_TABLE_NAME : String := "tbl9D8m3mF2RVptEc"
def COLLABORATORS_TABLE_NAME : String := "tblev0ek2lTzgxIMQ"
def TASK_ATTACHMENTS_TABLE_NAME : String := "tblwPb1smWrdFtTfE"
def TASK_CHECKLIST_TABLE_NAME : String := "tblbOAaUlFZvPzTTJ"
def TASK_FORMS_TABLE_NAME : String := "tblLxZdNHFCq8ETVL"
def TASK_FORMS_FIELDS_TABLE_NAME : String := "tbl91WJ2yjJX6ndAs"
def TASK_FORMS_SUBMISSIONS_TABLE_NAME : String := "tbllxpBCIdShL5Mih"
def TASK_CHAT_TABLE_NAME : String := "tblmByy6LcRAYyf0y"
def TASK_GROUPS_TABLE_NAME : String := "tblCD3xEADjeAG3d4"
def INFORMATIONAL_TABLE_NAME : String := "tblM7936jKJeBdw36"
def IMAGE_ASSETS_TABLE_NAME : String := "tblTP0vUb0aMMTpIr"

/-- `getTableName`: logical table name to external table id; unrecognized
names fall back to the main table. -/
def getTableName (name : String) : String :=
  match name with
  | "counter" => COUNTER_TABLE_NAME
  | "actions" => ACTIONS_TABLE_NAME
  | "activities" => ACTIVITIES_TABLE_NAME
  | "tasks" => TASKS_TABLE_NAME
  | "collaborators" => COLLABORATORS_TABLE_NAME
  | "task_attachments" => TASK_ATTACHMENTS_TABLE_NAME
  | "task_checklists" => TASK_CHECKLIST_TABLE_NAME
  | "task_chat" => TASK_CHAT_TABLE_NAME
  | "task_forms" => TASK_FORMS_TABLE_NAME
  | "task_forms_fields" => TASK_FORMS_FIELDS_TABLE_NAME
  | "task_forms_submissions" => TASK_FORMS_SUBMISSIONS_TABLE_NAME
  | "task_groups" => TASK_GROUPS_TABLE_NAME
  | "informational_pages" => INFORMATIONAL_TABLE_NAME
  | "image_assets" => IMAGE_ASSETS_TABLE_NAME
  | _ => MAIN_TABLE_NAME

/-! ## getFilteredRecords: server-side filter formula construction -/

/-- `recordId.includes('@')`, on the string's character list. -/
def includesAt (s : String) : Bool :=
  s.data.contains '@'

/-- The `filterByFormula` expression built by `getFilteredRecords`,
branching on the logical table name exactly as the source's `switch`. -/
def getFilteredRecordsFormula (recordId : String) (tableName : String) : String :=
  match tableName with
  | "actions" => "\x7bProject ID\x7d = \"" ++ recordId ++ "\""
  | "tasks" =>
      if includesAt recordId then
        "\x7bassigned_to\x7d = \"" ++ recordId ++ "\""
      else
        "\x7bProject ID (from Project ID)\x7d = \"" ++ recordId ++ "\""
  | "task_groups" => "\x7bProject ID (from projectID)\x7d = \"" ++ recordId ++ "\""
  | "task_attachments" => "\x7bid (from task_id)\x7d = \"" ++ recordId ++ "\""
  | "task_checklists" => "\x7bid (from task_id)\x7d = \"" ++ recordId ++ "\""
  | "task_forms_fields" => "FIND(\"" ++ recordId ++ "\", ARRAYJOIN(\x7btask_form\x7d))"
  | "task_forms_submissions" => "\x7bid (from task_id)\x7d = \"" ++ recordId ++ "\""
  | "task_chat" => "\x7bid (from task_id)\x7d = \"" ++ recordId ++ "\""
  | "main_table" => "\x7bProject ID\x7d = \"" ++ recordId ++ "\""
  | _ => "\x7bProject ID (from Project ID)\x7d = \"" ++ recordId ++ "\""

/-! ## createRecords: numeric coercion for the main table -/

/-- The numeric-typed fields of the main table. -/
def numericFields : List String := ["Full Cost", "Paid", "Balance"]

/-- Models the JS `Number()` coercion on the value shapes of this system:
numbers pass through, integer-valued strings parse, the empty string is 0,
booleans become 0/1, anything non-numeric becomes NaN. -/
def jsToNumber (v : JVal) : JVal :=
  match v with
  | .num n => .num n
  | .str s =>
      match s.data with
      | [] => .num 0
      | c :: cs =>
          match parseDigits (if c = '-' then cs else c :: cs) with
          | some n => .num (if c = '-' then -(n : Int) else (n : Int))
          | none => .nan
  | .bool b => .num (if b then 1 else 0)
  | _ => .nan
where
  /-- Parse a nonempty all-digit character list as a natural number. -/
  parseDigits (l : List Char) : Option Nat :=
    match l with
    | [] => none
    | _ =>
      l.foldl (fun acc c =>
        match acc with
        | none => none
        | some n => if c.isDigit then some (n * 10 + (c.toNat - 48)) else none)
        (some 0)

/-- The loop body of `createRecords`' cleaning pass: a numeric field's value
gets `value === '' ? 0 : Number(value)`, any other field's value passes
through. -/
def cleanValue (field : String) (value : JVal) : JVal :=
  if field ∈ numericFields then
    (if value = JVal.str "" then JVal.num 0 else jsToNumber value)
  else value

/-- The per-record field cleaning applied by `createRecords` for the main
table: every field's value goes through `cleanValue`, keys and their order
are preserved. -/
def cleanFields (fs : Fields) : Fields :=
  fs.map (fun p => (p.1, cleanValue p.1 p.2))

/-- The `processedRecords` computed by `createRecords` before any page is
sent: the main table gets `cleanFields` per record, every other resolved
table passes the records through unmodified. -/
def createRecordsProcess (recordsToCreate : List FieldsRec) (tableName : String) :
    List FieldsRec :=
  if getTableName tableName ≠ MAIN_TABLE_NAME then recordsToCreate
  else recordsToCreate.map (fun r => ⟨cleanFields r.fields⟩)

/-! ## Bulk-write chunking (createRecords / updateMultipleRecords) -/

/-- The batching loop `for (let i = 0; i < l.length; i += 10)` with
`l.slice(i, i + 10)`: split a list into consecutive pages of at most 10. -/
def chunks10 {α : Type} : List α → List (List α)
  | [] => []
  | x :: xs => (x :: xs).take 10 :: chunks10 ((x :: xs).drop 10)
termination_by l => l.length
decreasing_by
  simp only [List.length_drop, List.length_cons]
  omega

/-- Whether an external call outcome is a success. -/
def isOkE {ε α : Type} : Except ε α → Bool
  | .ok _ => true
  | .error _ => false

/-- Success-path sequential page execution: issue `call` on each page in
order and concatenate the per-page results in request order. -/
def runPagesOk {α β : Type} (call : List α → List β) : List (List α) → List β
  | [] => []
  | p :: ps => call p ++ runPagesOk call ps

/-- Sequential page execution against a fallible external call, recording
the pages actually issued.  Returns `(issued pages, outcome)`: on the first
failing page the error is returned at once and no later page is issued; on
full success the per-page results are concatenated in request order. -/
def runPagesTrace {α β ε : Type} (call : List α → Except ε (List β)) :
    List (List α) → List (List α) × Except ε (List β)
  | [] => ([], .ok [])
  | p :: ps =>
      match call p with
      | .error e => ([p], .error e)
      | .ok r =>
          let rest := runPagesTrace call ps
          (p :: rest.1,
            match rest.2 with
            | .error e => .error e
            | .ok l => .ok (r ++ l))

/-- The pages `createRecords` sends: chunks of the processed records. -/
def createRecordsPages (recordsToCreate : List FieldsRec) (tableName : String) :
    List (List FieldsRec) :=
  chunks10 (createRecordsProcess recordsToCreate tableName)

/-- The pages `updateMultipleRecords` sends: chunks of the given records,
unprocessed. -/
def updateMultiplePages (recordsToUpdate : List Rec) : List (List Rec) :=
  chunks10 recordsToUpdate

/-- `createRecords` run against an abstract fallible external call:
sequential page calls over the processed records, with the issued pages
recorded. -/
def createRecordsRun {β ε : Type} (call : List FieldsRec → Except ε (List β))
    (recordsToCreate : List FieldsRec) (tableName : String) :
    List (List FieldsRec) × Except ε (List β) :=
  runPagesTrace call (createRecordsPages recordsToCreate tableName)

/-- `updateMultipleRecords` run against an abstract fallible external call. -/
def updateMultipleRecordsRun {β ε : Type} (call : List Rec → Except ε (List β))
    (recordsToUpdate : List Rec) :
    List (List Rec) × Except ε (List β) :=
  runPagesTrace call (updateMultiplePages recordsToUpdate)

/-! ## Board transform (transformData) -/

/-- A group entry of the board, as built in `transformData`'s `groupsMap`. -/
structure Group where
  task_groups : String
  group_name : String
  group_order : Int
  tasks : List Fields
deriving DecidableEq

/-- The board returned by `transformData`: `{ groups, ungrouped }`. -/
structure Board where
  groups : List Group
  ungrouped : List Fields
deriving DecidableEq

/-- The group link of a record:
`record.fields.task_groups && record.fields.task_groups.length > 0`,
yielding `record.fields.task_groups[0]`.  Group links are linked-record id
arrays in this table's schema. -/
def groupLink (fs : Fields) : Option String :=
  match getField fs "task_groups" with
  | some (.arrS (g :: _)) => some g
  | _ => none

/-- `record.fields.group_name?.[0] || "Unnamed Group"`: the denormalized
group name carried on the record, defaulting when absent or falsy. -/
def groupNameOf (fs : Fields) : String :=
  match getField fs "group_name" with
  | some (.arrS (n :: _)) => if n = "" then "Unnamed Group" else n
  | _ => "Unnamed Group"

/-- `record.fields.group_order?.[0] ?? 0`: the denormalized group order
carried on the record, defaulting to 0 when absent. -/
def groupOrderOf (fs : Fields) : Int :=
  match getField fs "group_order" with
  | some (.arrN (n :: _)) => n
  | _ => 0

/-- The three `delete` statements stripping group linkage from a task. -/
def stripGroupFields (fs : Fields) : Fields :=
  deleteField (deleteField (deleteField fs "task_groups") "group_name") "group_order"

/-- `groupsMap` insertion: push the task onto the existing entry for the
group id, or append a fresh entry (JS `Map` preserves insertion order).
An existing entry's name and order are left untouched. -/
def insertTask (gs : List Group) (gid : String) (gname : String) (gorder : Int)
    (task : Fields) : List Group :=
  if gs.any (fun g => g.task_groups = gid) then
    gs.map (fun g =>
      if g.task_groups = gid then ⟨g.task_groups, g.group_name, g.group_order, g.tasks ++ [task]⟩
      else g)
  else
    gs ++ [⟨gid, gname, gorder, [task]⟩]

/-- The partition loop of `transformData`: fold the records in input order,
accumulating the groups map (in discovery order) and the ungrouped bucket. -/
def buildGroupsStep (acc : List Group × List Fields) (r : Rec) :
    List Group × List Fields :=
  let task := stripGroupFields r.fields
  match groupLink r.fields with
  | some gid =>
      (insertTask acc.1 gid (groupNameOf r.fields) (groupOrderOf r.fields) task, acc.2)
  | none => (acc.1, acc.2 ++ [task])

/-- Groups in discovery order and the ungrouped bucket, before sorting. -/
def buildGroups (records : List Rec) : List Group × List Fields :=
  records.foldl buildGroupsStep ([], [])

/-- The sort key `(t.order ?? 0)` of a task. -/
def orderKey (fs : Fields) : Int :=
  match getField fs "order" with
  | some (.num n) => n
  | _ => 0

/-- Stable insertion step for an ascending sort by an integer key: the new
element passes every earlier element with a strictly smaller key and lands
before the first element with a greater-or-equal key. -/
def insertByKey {α : Type} (key : α → Int) (x : α) : List α → List α
  | [] => [x]
  | y :: ys => if key y < key x then y :: insertByKey key x ys else x :: y :: ys

/-- Stable ascending sort by an integer key, modelling JS
`Array.prototype.sort` with comparator `(a, b) => key a - key b`
(stability is mandated by the language). -/
def sortByKey {α : Type} (key : α → Int) : List α → List α
  | [] => []
  | x :: xs => insertByKey key x (sortByKey key xs)

/-- `tasks.forEach((t, idx) => t.order = idx)`: overwrite each task's
`order` with its dense 0-based rank. -/
def resetOrders (ts : List Fields) : List Fields :=
  ts.enum.map (fun p => setField p.2 "order" (JVal.num p.1))

/-- Per-group normalization: sort the group's tasks by their own `order`
key and rewrite `order` with the dense rank. -/
def normalizeGroup (g : Group) : Group :=
  ⟨g.task_groups, g.group_name, g.group_order, resetOrders (sortByKey orderKey g.tasks)⟩

/-- The groups of the board in discovery order, tasks already normalized,
before the final sort by `group_order`. -/
def discoveredGroups (records : List Rec) : List Group :=
  (buildGroups records).1.map normalizeGroup

/-- `transformData`: partition the records into groups / ungrouped,
normalize task order within each bucket, and sort the groups by
`group_order`. -/
def transformData (records : List Rec) : Board :=
  ⟨sortByKey (fun g => g.group_order) (discoveredGroups records),
   resetOrders (sortByKey orderKey (buildGroups records).2)⟩

/-- Every task object appearing in the board, grouped buckets first. -/
def boardTasks (b : Board) : List Fields :=
  (b.groups.map Group.tasks).flatten ++ b.ungrouped

/-- The metadata triple of a group entry: its id, denormalized name and
denormalized order — everything except its task list. -/
def gmeta (g : Group) : String × String × Int :=
  (g.task_groups, g.group_name, g.group_order)

/-! ## Attachment append / replace handlers (index.js upload routes) -/

/-- `currentRecord.fields[fieldName] || []`: the current attachment list
of the field, defaulting to empty when the field is absent. -/
def existingAttachments (fs : Fields) (fieldName : String) : List Attachment :=
  match getField fs fieldName with
  | some (.att l) => l
  | _ => []

/-- The append-mode upload handler's record update: read the current list,
append the new reference, write the full list back. -/
def uploadAppendHandler (record : Rec) (fieldName : String) (newRef : Attachment) : Rec :=
  ⟨record.id,
   setField record.fields fieldName
     (JVal.att (existingAttachments record.fields fieldName ++ [newRef]))⟩

/-- The replace-mode upload handler's record update: write `[newRef]`,
discarding prior attachments in the field. -/
def replaceHandler (record : Rec) (fieldName : String) (newRef : Attachment) : Rec :=
  ⟨record.id, setField record.fields fieldName (JVal.att [newRef])⟩

/-! ## Content-as-attachment storage (index.js) -/

/-- `generateContentFileName`: the backing object name, a deterministic
function of the `(tableName, recordId, fieldName)` triple alone. -/
def generateContentFileName (tableName recordId fieldName : String) : String :=
  "content-" ++ tableName ++ "-" ++ recordId ++ "-" ++ fieldName ++ ".json"

/-- The object store: an ordered mapping from object name to content;
`file.save` overwrites the object at the name or creates it. -/
def putObject (objects : List (String × String)) (name content : String) :
    List (String × String) :=
  match objects with
  | [] => [(name, content)]
  | (n, c) :: rest =>
      if n = name then (name, content) :: rest else (n, c) :: putObject rest name content

/-- Read an object's content by name. -/
def lookupObject (objects : List (String × String)) (name : String) : Option String :=
  match objects with
  | [] => none
  | (n, c) :: rest => if n = name then some c else lookupObject rest name

/-- The `/api/save-content-attachment` handler: derive the object name from
the triple, save the content under it, and set the record field to a
single-element attachment-reference list pointing at its public URL. -/
def saveContentAttachment (objects : List (String × String)) (bucketName : String)
    (tableName recordId fieldName content : String) (record : Rec) :
    List (String × String) × Rec :=
  let fileName := generateContentFileName tableName recordId fieldName
  let objects' := putObject objects fileName content
  let publicUrl := "https://storage.googleapis.com/" ++ bucketName ++ "/" ++ fileName
  (objects',
   ⟨record.id, setField record.fields fieldName (JVal.att [⟨publicUrl, fileName⟩])⟩)

/-! ## Concrete sample inputs used by witnesses -/

/-- Two ungrouped records with out-of-order `order` values. -/
def demoNoGroupRecs : List Rec :=
  [⟨"r1", [("title", JVal.str "a"), ("order", JVal.num 5)]⟩,
   ⟨"r2", [("title", JVal.str "b"), ("order", JVal.num 2)]⟩]

/-- Three task records: two in group `gA` (whose second record carries a
different denormalized name and order), one in group `gB`. -/
def demoGroupRecs : List Rec :=
  [⟨"t1", [("title", JVal.str "t1"), ("order", JVal.num 9),
           ("task_groups", JVal.arrS ["gA"]), ("group_name", JVal.arrS ["Alpha"]),
           ("group_order", JVal.arrN [5])]⟩,
   ⟨"t2", [("title", JVal.str "t2"), ("order", JVal.num 1),
           ("task_groups", JVal.arrS ["gB"]), ("group_name", JVal.arrS ["Beta"]),
           ("group_order", JVal.arrN [2])]⟩,
   ⟨"t3", [("title", JVal.str "t3"), ("order", JVal.num 3),
           ("task_groups", JVal.arrS ["gA"]), ("group_name", JVal.arrS ["AlphaRenamed"]),
           ("group_order", JVal.arrN [7])]⟩]

/-- The group entry for `gA` as it appears in the board computed from
`demoGroupRecs`: first record's metadata, tasks sorted and re-ranked. -/
def demoGroupA : Group :=
  ⟨"gA", "Alpha", 5,
    [[("title", JVal.str "t3"), ("order", JVal.num 0)],
     [("title", JVal.str "t1"), ("order", JVal.num 1)]]⟩

/-- Twelve empty creation payloads (two pages: 10 + 2). -/
def demoCreateRecs : List FieldsRec := List.replicate 12 ⟨[]⟩

/-- Twelve records to update (two pages: 10 + 2). -/
def demoUpdateRecs : List Rec := List.replicate 12 ⟨"r", []⟩

/-- An external create call that accepts full pages and fails short ones. -/
def demoCallC : List FieldsRec → Except String (List Nat) :=
  fun p => if p.length = 10 then .ok [] else .error "page failed"

/-- An external update call that accepts full pages and fails short ones. -/
def demoCallU : List Rec → Except String (List Nat) :=
  fun p => if p.length = 10 then .ok [] else .error "page failed"

/-! ## Field-access lemmas -/

theorem getField_setField_same (fs : Fields) (k : String) (v : JVal) :
    getField (setField fs k v) k = some v := by
  induction fs with
  | nil => simp [setField, getField]
  | cons p rest ih =>
      obtain ⟨k', v'⟩ := p
      by_cases h : k' = k
      · simp [setField, h, getField]
      · simp [setField, h, getField, ih]

theorem getField_setField_ne (fs : Fields) (k k' : String) (v : JVal) (h : k' ≠ k) :
    getField (setField fs k v) k' = getField fs k' := by
  have hkk : ¬ k = k' := fun hh => h hh.symm
  induction fs with
  | nil => simp [setField, getField, hkk]
  | cons p rest ih =>
      obtain ⟨a, b⟩ := p
      by_cases ha : a = k
      · subst ha
        simp [setField, getField, hkk]
      · by_cases ha' : a = k'
        · simp [setField, getField, ha, ha', h]
        · simp [setField, getField, ha, ha', ih]

theorem getField_deleteField_same (fs : Fields) (k : String) :
    getField (deleteField fs k) k = none := by
  induction fs with
  | nil => simp [deleteField, getField]
  | cons p rest ih =>
      obtain ⟨a, b⟩ := p
      by_cases h : a = k
      · simpa [deleteField, h] using ih
      · simpa [deleteField, getField, h] using ih

theorem getField_deleteField_ne (fs : Fields) (k k' : String) (h : k' ≠ k) :
    getField (deleteField fs k) k' = getField fs k' := by
  induction fs with
  | nil => simp [deleteField]
  | cons p rest ih =>
      obtain ⟨a, b⟩ := p
      by_cases ha : a = k
      · subst ha
        have ha' : ¬ a = k' := fun hh => h hh.symm
        simp [deleteField, getField, ha', ih]
      · by_cases ha' : a = k'
        · simp [deleteField, getField, ha, ha', h]
        · simp [deleteField, getField, ha, ha', ih]

/-! ## Object-store lemmas -/

theorem lookupObject_putObject_same (objects : List (String × String)) (n c : String) :
    lookupObject (putObject objects n c) n = some c := by
  induction objects with
  | nil => simp [putObject, lookupObject]
  | cons p rest ih =>
      obtain ⟨n', c'⟩ := p
      by_cases h : n' = n
      · simp [putObject, h, lookupObject]
      · simp [putObject, h, lookupObject, ih]

theorem map_fst_putObject (objects : List (String × String)) (n c : String) :
    (putObject objects n c).map Prod.fst =
      (if n ∈ objects.map Prod.fst then objects.map Prod.fst
       else objects.map Prod.fst ++ [n]) := by
  induction objects with
  | nil => simp [putObject]
  | cons p rest ih =>
      obtain ⟨n', c'⟩ := p
      by_cases h : n' = n
      · simp [putObject, h]
      · by_cases hmem : n ∈ rest.map Prod.fst
        · simp [putObject, h, ih, hmem, Ne.symm h]
        · simp [putObject, h, ih, hmem, Ne.symm h]

theorem mem_map_fst_putObject (objects : List (String × String)) (n c : String) :
    n ∈ (putObject objects n c).map Prod.fst := by
  rw [map_fst_putObject]
  by_cases h : n ∈ objects.map Prod.fst
  · rw [if_pos h]; exact h
  · rw [if_neg h]; exact List.mem_append_right _ (by simp)

theorem map_fst_putObject_of_mem (objects : List (String × String)) (n c : String)
    (h : n ∈ objects.map Prod.fst) :
    (putObject objects n c).map Prod.fst = objects.map Prod.fst := by
  rw [map_fst_putObject, if_pos h]

/-! ## Claim theorems: adapter string and coercion behavior -/

/-- C9: `getFilteredRecords` builds its filter expression by branching on
the logical table name; for the tasks table an anchor containing `@` (an
email-looking anchor) selects by the assignee field, and any other anchor
selects by project linkage.  Other table names get their own shapes, and
unrecognized names get the default project-linkage filter. -/
theorem getFilteredRecords_filter_shape (recordId : String) :
    getFilteredRecordsFormula recordId "tasks"
      = (if includesAt recordId then "\x7bassigned_to\x7d = \"" ++ recordId ++ "\""
         else "\x7bProject ID (from Project ID)\x7d = \"" ++ recordId ++ "\"") ∧
    getFilteredRecordsFormula recordId "actions"
      = "\x7bProject ID\x7d = \"" ++ recordId ++ "\"" ∧
    getFilteredRecordsFormula recordId "task_groups"
      = "\x7bProject ID (from projectID)\x7d = \"" ++ recordId ++ "\"" ∧
    getFilteredRecordsFormula recordId "activities"
      = "\x7bProject ID (from Project ID)\x7d = \"" ++ recordId ++ "\"" :=
  ⟨rfl, rfl, rfl, rfl⟩

/-- C8: the backing object name used by `saveContentAttachment` is the
deterministic, content-independent `generateContentFileName` of the
`(tableName, recordId, fieldName)` triple, so a second save with the same
triple but different content overwrites the same backing object (the set of
object names does not grow) and the record field is set to a single-element
attachment-reference list pointing at that one object. -/
theorem saveContentAttachment_idempotent_naming
    (objects : List (String × String)) (bucketName tableName recordId fieldName : String)
    (c1 c2 : String) (record : Rec) :
    (saveContentAttachment
        (saveContentAttachment objects bucketName tableName recordId fieldName c1 record).1
        bucketName tableName recordId fieldName c2
        (saveContentAttachment objects bucketName tableName recordId fieldName c1 record).2).1.map
        Prod.fst
      = (saveContentAttachment objects bucketName tableName recordId fieldName c1 record).1.map
        Prod.fst ∧
    lookupObject
        (saveContentAttachment objects bucketName tableName recordId fieldName c1 record).1
        (generateContentFileName tableName recordId fieldName) = some c1 ∧
    lookupObject
        (saveContentAttachment
          (saveContentAttachment objects bucketName tableName recordId fieldName c1 record).1
          bucketName tableName recordId fieldName c2
          (saveContentAttachment objects bucketName tableName recordId fieldName c1 record).2).1
        (generateContentFileName tableName recordId fieldName) = some c2 ∧
    getField
        (saveContentAttachment
          (saveContentAttachment objects bucketName tableName recordId fieldName c1 record).1
          bucketName tableName recordId fieldName c2
          (saveContentAttachment objects bucketName tableName recordId fieldName c1 record).2).2.fields
        fieldName
      = some (JVal.att
          [⟨"https://storage.googleapis.com/" ++ bucketName ++ "/"
              ++ generateContentFileName tableName recordId fieldName,
            generateContentFileName tableName recordId fieldName⟩]) := by
  refine ⟨?_, ?_, ?_, ?_⟩
  · exact map_fst_putObject_of_mem _ _ _ (mem_map_fst_putObject _ _ _)
  · exact lookupObject_putObject_same _ _ _
  · exact lookupObject_putObject_same _ _ _
  · exact getField_setField_same _ _ _

/-- C7: against a record whose attachment field currently holds `[A]`, the
append-mode upload handler writes back `[A, B]` (reading the current list
and appending the new reference) and the replace-mode handler writes
exactly `[B]`; when the field is absent the append handler defaults the
current list to empty and writes `[B]`. -/
theorem upload_append_replace (record : Rec) (fieldName : String) (A B : Attachment) :
    (getField record.fields fieldName = some (JVal.att [A]) →
      getField (uploadAppendHandler record fieldName B).fields fieldName
          = some (JVal.att [A, B]) ∧
      getField (replaceHandler record fieldName B).fields fieldName
          = some (JVal.att [B])) ∧
    (getField record.fields fieldName = none →
      getField (uploadAppendHandler record fieldName B).fields fieldName
          = some (JVal.att [B])) := by
  constructor
  · intro h
    constructor
    · show getField (setField record.fields fieldName _) fieldName = _
      rw [getField_setField_same]
      simp [existingAttachments, h]
    · exact getField_setField_same _ _ _
  · intro h
    show getField (setField record.fields fieldName _) fieldName = _
    rw [getField_setField_same]
    simp [existingAttachments, h]

/-- Witness for C7 at a concrete record with one existing attachment and at
a concrete record without the field. -/
theorem upload_append_replace_witness :
    getField [("files", JVal.att [⟨"uA", "a.pdf"⟩])] "files"
        = some (JVal.att [⟨"uA", "a.pdf"⟩]) ∧
    (getField (uploadAppendHandler ⟨"r1", [("files", JVal.att [⟨"uA", "a.pdf"⟩])]⟩
          "files" ⟨"uB", "b.pdf"⟩).fields "files"
        = some (JVal.att [⟨"uA", "a.pdf"⟩, ⟨"uB", "b.pdf"⟩]) ∧
      getField (replaceHandler ⟨"r1", [("files", JVal.att [⟨"uA", "a.pdf"⟩])]⟩
          "files" ⟨"uB", "b.pdf"⟩).fields "files"
        = some (JVal.att [⟨"uB", "b.pdf"⟩])) ∧
    getField ([] : Fields) "files" = none ∧
    getField (uploadAppendHandler ⟨"r2", []⟩ "files" ⟨"uB", "b.pdf"⟩).fields "files"
        = some (JVal.att [⟨"uB", "b.pdf"⟩]) :=
  ⟨by decide,
   (upload_append_replace ⟨"r1", [("files", JVal.att [⟨"uA", "a.pdf"⟩])]⟩
      "files" ⟨"uA", "a.pdf"⟩ ⟨"uB", "b.pdf"⟩).1 (by decide),
   by decide,
   (upload_append_replace ⟨"r2", []⟩ "files" ⟨"uA", "a.pdf"⟩ ⟨"uB", "b.pdf"⟩).2 (by decide)⟩

/-! ## Lemmas on cleanFields -/

theorem getField_cleanFields (fs : Fields) (k : String) :
    getField (cleanFields fs) k = (getField fs k).map (cleanValue k) := by
  induction fs with
  | nil => rfl
  | cons p rest ih =>
      obtain ⟨a, b⟩ := p
      by_cases ha : a = k
      · subst ha
        simp [cleanFields, getField]
      · simpa [cleanFields, getField, ha] using ih

theorem getField_cleanFields_of_not_numeric (fs : Fields) (k : String)
    (h : k ∉ numericFields) :
    getField (cleanFields fs) k = getField fs k := by
  rw [getField_cleanFields]
  cases getField fs k with
  | none => rfl
  | some v => simp [cleanValue, h]

theorem getField_cleanFields_of_numeric (fs : Fields) (k : String)
    (h : k ∈ numericFields) :
    getField (cleanFields fs) k
      = (getField fs k).map (fun v => if v = JVal.str "" then JVal.num 0 else jsToNumber v) := by
  rw [getField_cleanFields]
  cases getField fs k with
  | none => rfl
  | some v => simp [cleanValue, h]

/-- C6: `createRecords` coerces numeric-typed fields only when the resolved
table is the main table — an empty-string value becomes 0 and any other
value goes through the `Number()` coercion — while non-numeric fields pass
through unchanged; for every table resolving elsewhere the records are sent
through completely unmodified. -/
theorem createRecords_numeric_coercion (recs : List FieldsRec) (tableName : String) :
    (getTableName tableName ≠ MAIN_TABLE_NAME → createRecordsProcess recs tableName = recs) ∧
    (getTableName tableName = MAIN_TABLE_NAME →
        createRecordsProcess recs tableName = recs.map (fun r => ⟨cleanFields r.fields⟩)) ∧
    (∀ fs : Fields, ∀ k : String, k ∉ numericFields →
        getField (cleanFields fs) k = getField fs k) ∧
    (∀ fs : Fields, ∀ k : String, k ∈ numericFields →
        getField (cleanFields fs) k
          = (getField fs k).map
              (fun v => if v = JVal.str "" then JVal.num 0 else jsToNumber v)) := by
  refine ⟨?_, ?_, getField_cleanFields_of_not_numeric, getField_cleanFields_of_numeric⟩
  · intro h
    simp [createRecordsProcess, h]
  · intro h
    simp [createRecordsProcess, h]

/-- Witness for C6: the main table coerces `Paid` (empty string ↦ 0) and
`Full Cost` (numeric string ↦ number) while a non-main table passes the
same record through unmodified. -/
theorem createRecords_numeric_coercion_witness :
    getTableName "projects" = MAIN_TABLE_NAME ∧
    createRecordsProcess
        [⟨[("Paid", JVal.str ""), ("Full Cost", JVal.str "12"), ("Name", JVal.str "x")]⟩]
        "projects"
      = [⟨[("Paid", JVal.num 0), ("Full Cost", JVal.num 12), ("Name", JVal.str "x")]⟩] ∧
    getTableName "tasks" ≠ MAIN_TABLE_NAME ∧
    createRecordsProcess [⟨[("Paid", JVal.str "")]⟩] "tasks"
      = [⟨[("Paid", JVal.str "")]⟩] := by
  refine ⟨by decide, ?_, by decide, ?_⟩
  · rw [(createRecords_numeric_coercion
      [⟨[("Paid", JVal.str ""), ("Full Cost", JVal.str "12"), ("Name", JVal.str "x")]⟩]
      "projects").2.1 (by decide)]
    decide
  · exact (createRecords_numeric_coercion [⟨[("Paid", JVal.str "")]⟩] "tasks").1 (by decide)

/-! ## Chunking lemmas -/

theorem chunks10_flatten {α : Type} (l : List α) : (chunks10 l).flatten = l := by
  induction l using chunks10.induct with
  | case1 => simp [chunks10]
  | case2 x xs ih =>
      rw [chunks10]
      simp only [List.flatten_cons, ih]
      exact List.take_append_drop 10 (x :: xs)

theorem chunks10_length {α : Type} (l : List α) :
    (chunks10 l).length = (l.length + 9) / 10 := by
  induction l using chunks10.induct with
  | case1 => simp [chunks10]
  | case2 x xs ih =>
      rw [chunks10]
      simp only [List.length_cons, ih, List.length_drop]
      omega

theorem chunks10_page_le {α : Type} (l : List α) : ∀ p ∈ chunks10 l, p.length ≤ 10 := by
  induction l using chunks10.induct with
  | case1 => intro p hp; simp [chunks10] at hp
  | case2 x xs ih =>
      intro p hp
      rw [chunks10] at hp
      rcases List.mem_cons.mp hp with h | h
      · subst h
        rw [List.length_take]
        exact min_le_left _ _
      · exact ih p h

theorem runPagesOk_map {α β : Type} (g : α → β) (pages : List (List α)) :
    runPagesOk (fun p => p.map g) pages = pages.flatten.map g := by
  induction pages with
  | nil => rfl
  | cons p ps ih => simp [runPagesOk, ih]

theorem runPagesTrace_error_split {α β ε : Type} (call : List α → Except ε (List β))
    (pre post : List (List α)) (pk : List α) (e : ε)
    (hpre : ∀ p ∈ pre, isOkE (call p) = true) (hk : call pk = .error e) :
    runPagesTrace call (pre ++ pk :: post) = (pre ++ [pk], .error e) := by
  induction pre with
  | nil => simp [runPagesTrace, hk]
  | cons p ps ih =>
      have hp : isOkE (call p) = true := hpre p (by simp)
      obtain ⟨r, hr⟩ : ∃ r, call p = .ok r := by
        cases hc : call p with
        | ok r => exact ⟨r, rfl⟩
        | error e2 => rw [hc] at hp; simp [isOkE] at hp
      have ih2 := ih (fun q hq => hpre q (List.mem_cons_of_mem _ hq))
      simp [runPagesTrace, hr, ih2]

/-- C1: both bulk writes split N records into `ceil(N/10)` sequential page
calls, each carrying at most 10 records, the pages concatenate back to the
full record list in request order, and when the external call answers each
page record-by-record the aggregated output is the per-record responses in
exactly the input order. -/
theorem bulkWrite_pagination {β γ : Type} (recs : List FieldsRec) (urecs : List Rec)
    (tableName : String) (respC : FieldsRec → β) (respU : Rec → γ) :
    (createRecordsPages recs tableName).length = (recs.length + 9) / 10 ∧
    (∀ p ∈ createRecordsPages recs tableName, p.length ≤ 10) ∧
    (createRecordsPages recs tableName).flatten = createRecordsProcess recs tableName ∧
    (createRecordsProcess recs tableName).length = recs.length ∧
    runPagesOk (fun p => p.map respC) (createRecordsPages recs tableName)
      = (createRecordsProcess recs tableName).map respC ∧
    (updateMultiplePages urecs).length = (urecs.length + 9) / 10 ∧
    (∀ p ∈ updateMultiplePages urecs, p.length ≤ 10) ∧
    (updateMultiplePages urecs).flatten = urecs ∧
    runPagesOk (fun p => p.map respU) (updateMultiplePages urecs) = urecs.map respU := by
  have hlen : (createRecordsProcess recs tableName).length = recs.length := by
    unfold createRecordsProcess
    split <;> simp
  refine ⟨?_, chunks10_page_le _, chunks10_flatten _, hlen, ?_, ?_,
    chunks10_page_le _, chunks10_flatten _, ?_⟩
  · rw [createRecordsPages, chunks10_length, hlen]
  · rw [createRecordsPages, runPagesOk_map, chunks10_flatten]
  · rw [updateMultiplePages, chunks10_length]
  · rw [updateMultiplePages, runPagesOk_map, chunks10_flatten]

/-- C2: for either bulk write, if the external call fails on some page
after succeeding on every earlier page, the error propagates immediately
with no retry — the issued pages are exactly the successful prefix plus the
failing page (earlier pages stay committed, later pages are never issued)
and the outcome is that page's error. -/
theorem bulkWrite_error_nonatomic {β ε : Type}
    (callC : List FieldsRec → Except ε (List β)) (callU : List Rec → Except ε (List β))
    (recs : List FieldsRec) (urecs : List Rec) (tableName : String)
    (preC postC : List (List FieldsRec)) (pkC : List FieldsRec) (eC : ε)
    (preU postU : List (List Rec)) (pkU : List Rec) (eU : ε)
    (hC : createRecordsPages recs tableName = preC ++ pkC :: postC)
    (hpreC : ∀ p ∈ preC, isOkE (callC p) = true)
    (hkC : callC pkC = .error eC)
    (hU : updateMultiplePages urecs = preU ++ pkU :: postU)
    (hpreU : ∀ p ∈ preU, isOkE (callU p) = true)
    (hkU : callU pkU = .error eU) :
    createRecordsRun callC recs tableName = (preC ++ [pkC], .error eC) ∧
    updateMultipleRecordsRun callU urecs = (preU ++ [pkU], .error eU) := by
  constructor
  · rw [createRecordsRun, hC]
    exact runPagesTrace_error_split _ _ _ _ _ hpreC hkC
  · rw [updateMultipleRecordsRun, hU]
    exact runPagesTrace_error_split _ _ _ _ _ hpreU hkU

/-- Witness for C2: twelve records make pages [10, 2]; a call that rejects
the short second page makes both bulk writes issue exactly the first page
(committed) and the failing second page, and return its error. -/
theorem bulkWrite_error_nonatomic_witness :
    createRecordsPages demoCreateRecs "tasks"
        = [List.replicate 10 ⟨[]⟩] ++ List.replicate 2 ⟨[]⟩ :: [] ∧
    (∀ p ∈ [List.replicate 10 (⟨[]⟩ : FieldsRec)], isOkE (demoCallC p) = true) ∧
    demoCallC (List.replicate 2 ⟨[]⟩) = .error "page failed" ∧
    updateMultiplePages demoUpdateRecs
        = [List.replicate 10 ⟨"r", []⟩] ++ List.replicate 2 ⟨"r", []⟩ :: [] ∧
    (∀ p ∈ [List.replicate 10 (⟨"r", []⟩ : Rec)], isOkE (demoCallU p) = true) ∧
    demoCallU (List.replicate 2 ⟨"r", []⟩) = .error "page failed" ∧
    createRecordsRun demoCallC demoCreateRecs "tasks"
        = ([List.replicate 10 ⟨[]⟩] ++ [List.replicate 2 ⟨[]⟩], .error "page failed") ∧
    updateMultipleRecordsRun demoCallU demoUpdateRecs
        = ([List.replicate 10 ⟨"r", []⟩] ++ [List.replicate 2 ⟨"r", []⟩], .error "page failed") := by
  have hC : createRecordsPages demoCreateRecs "tasks"
      = [List.replicate 10 ⟨[]⟩] ++ List.replicate 2 ⟨[]⟩ :: [] := by
    simp [createRecordsPages, createRecordsProcess, demoCreateRecs, chunks10,
      List.replicate, getTableName, TASKS_TABLE_NAME, MAIN_TABLE_NAME]
  have hU : updateMultiplePages demoUpdateRecs
      = [List.replicate 10 ⟨"r", []⟩] ++ List.replicate 2 ⟨"r", []⟩ :: [] := by
    simp [updateMultiplePages, demoUpdateRecs, chunks10, List.replicate]
  have hpreC : ∀ p ∈ [List.replicate 10 (⟨[]⟩ : FieldsRec)], isOkE (demoCallC p) = true := by
    decide
  have hkC : demoCallC (List.replicate 2 ⟨[]⟩) = .error "page failed" := rfl
  have hpreU : ∀ p ∈ [List.replicate 10 (⟨"r", []⟩ : Rec)], isOkE (demoCallU p) = true := by
    decide
  have hkU : demoCallU (List.replicate 2 ⟨"r", []⟩) = .error "page failed" := rfl
  have h := bulkWrite_error_nonatomic demoCallC demoCallU demoCreateRecs demoUpdateRecs
    "tasks" [List.replicate 10 ⟨[]⟩] [] (List.replicate 2 ⟨[]⟩) "page failed"
    [List.replicate 10 ⟨"r", []⟩] [] (List.replicate 2 ⟨"r", []⟩) "page failed"
    hC hpreC hkC hU hpreU hkU
  exact ⟨hC, hpreC, hkC, hU, hpreU, hkU, h.1, h.2⟩

/-! ## Stable-sort lemmas -/

theorem insertByKey_length {α : Type} (key : α → Int) (x : α) (l : List α) :
    (insertByKey key x l).length = l.length + 1 := by
  induction l with
  | nil => rfl
  | cons y ys ih =>
      by_cases h : key y < key x
      · simp [insertByKey, h, ih]
      · simp [insertByKey, h]

theorem sortByKey_length {α : Type} (key : α → Int) (l : List α) :
    (sortByKey key l).length = l.length := by
  induction l with
  | nil => rfl
  | cons y ys ih => simp [sortByKey, insertByKey_length, ih]

theorem mem_insertByKey {α : Type} (key : α → Int) (x a : α) (l : List α) :
    a ∈ insertByKey key x l ↔ a = x ∨ a ∈ l := by
  induction l with
  | nil => simp [insertByKey]
  | cons y ys ih =>
      by_cases h : key y < key x
      · simp only [insertByKey, if_pos h, List.mem_cons, ih]
        tauto
      · simp only [insertByKey, if_neg h, List.mem_cons]

theorem mem_sortByKey {α : Type} (key : α → Int) (a : α) (l : List α) :
    a ∈ sortByKey key l ↔ a ∈ l := by
  induction l with
  | nil => simp [sortByKey]
  | cons y ys ih => simp [sortByKey, mem_insertByKey, ih]

theorem pairwise_insertByKey {α : Type} (key : α → Int) (x : α) (l : List α)
    (h : l.Pairwise (fun a b => key a ≤ key b)) :
    (insertByKey key x l).Pairwise (fun a b => key a ≤ key b) := by
  induction l with
  | nil => simp [insertByKey]
  | cons y ys ih =>
      rcases List.pairwise_cons.mp h with ⟨hy, hys⟩
      by_cases hlt : key y < key x
      · rw [insertByKey, if_pos hlt, List.pairwise_cons]
        constructor
        · intro z hz
          rcases (mem_insertByKey key x z ys).mp hz with rfl | hzys
          · exact le_of_lt hlt
          · exact hy z hzys
        · exact ih hys
      · rw [insertByKey, if_neg hlt, List.pairwise_cons]
        constructor
        · intro z hz
          rcases List.mem_cons.mp hz with rfl | hzys
          · exact le_of_not_lt hlt
          · exact le_trans (le_of_not_lt hlt) (hy z hzys)
        · exact h

theorem sortByKey_pairwise {α : Type} (key : α → Int) (l : List α) :
    (sortByKey key l).Pairwise (fun a b => key a ≤ key b) := by
  induction l with
  | nil => simp [sortByKey]
  | cons y ys ih => exact pairwise_insertByKey key y (sortByKey key ys) ih

theorem insertByKey_filter {α : Type} (key : α → Int) (x : α) (l : List α) (c : Int) :
    (insertByKey key x l).filter (fun a => key a = c)
      = (if key x = c then x :: l.filter (fun a => key a = c)
         else l.filter (fun a => key a = c)) := by
  induction l with
  | nil =>
      by_cases hx : key x = c <;> simp [insertByKey, List.filter, hx]
  | cons y ys ih =>
      by_cases hlt : key y < key x
      · rw [insertByKey, if_pos hlt]
        by_cases hy : key y = c
        · by_cases hx : key x = c
          · rw [hy, hx] at hlt
            exact absurd hlt (lt_irrefl c)
          · simp [List.filter_cons, hy, hx, ih]
        · by_cases hx : key x = c <;> simp [List.filter_cons, hy, hx, ih]
      · rw [insertByKey, if_neg hlt]
        by_cases hx : key x = c <;> simp [List.filter_cons, hx]

theorem sortByKey_filter {α : Type} (key : α → Int) (l : List α) (c : Int) :
    (sortByKey key l).filter (fun a => key a = c) = l.filter (fun a => key a = c) := by
  induction l with
  | nil => rfl
  | cons y ys ih =>
      rw [sortByKey, insertByKey_filter]
      by_cases hy : key y = c <;> simp [List.filter_cons, hy, ih]

/-! ## resetOrders lemmas -/

theorem resetOrders_length (ts : List Fields) : (resetOrders ts).length = ts.length := by
  simp [resetOrders]

theorem resetOrders_getElem (ts : List Fields) (i : Nat) (hi : i < (resetOrders ts).length) :
    (resetOrders ts)[i]
      = setField (ts.get ⟨i, by simpa [resetOrders_length] using hi⟩) "order" (JVal.num i) := by
  have hi' : i < ts.enum.length := by
    simpa [resetOrders, List.enum_length] using hi
  simp [resetOrders, List.getElem_map, List.getElem_enum, List.get_eq_getElem]

theorem getField_resetOrders (ts : List Fields) (i : Nat)
    (hi : i < (resetOrders ts).length) :
    getField ((resetOrders ts)[i]) "order" = some (JVal.num i) := by
  rw [resetOrders_getElem]
  exact getField_setField_same _ _ _

theorem mem_resetOrders (ts : List Fields) (t : Fields) (ht : t ∈ resetOrders ts) :
    ∃ t0 ∈ ts, ∃ k : Nat, t = setField t0 "order" (JVal.num k) := by
  obtain ⟨i, hi, hget⟩ := List.mem_iff_getElem.mp ht
  have hlen : i < ts.length := by simpa [resetOrders_length] using hi
  refine ⟨ts[i], List.getElem_mem hlen, i, ?_⟩
  rw [← hget, resetOrders_getElem]
  rw [List.get_eq_getElem]

/-! ## buildGroups lemmas -/

theorem foldl_buildGroupsStep_nogroup (rs : List Rec)
    (h : ∀ r ∈ rs, groupLink r.fields = none) :
    ∀ acc : List Group × List Fields,
      rs.foldl buildGroupsStep acc
        = (acc.1, acc.2 ++ rs.map (fun r => stripGroupFields r.fields)) := by
  induction rs with
  | nil => intro acc; simp
  | cons r rs' ih =>
      intro acc
      have hr : groupLink r.fields = none := h r (by simp)
      have hrest : ∀ q ∈ rs', groupLink q.fields = none :=
        fun q hq => h q (List.mem_cons_of_mem _ hq)
      rw [List.foldl_cons]
      rw [ih hrest]
      simp [buildGroupsStep, hr]

/-- C3: for every input record list, each output group's task list and the
ungrouped bucket equal their partition bucket stable-sorted by the tasks'
own `order` key (missing treated as 0, via `sortByKey orderKey`) with
`order` then overwritten by `resetOrders` — so every task in every bucket
reads its dense 0-based rank; in particular, when no record carries a group
link, `groups` is empty and `ungrouped` holds all N stripped records with
`order` set to `0..N-1` in sort order. -/
theorem transformData_bucket_sort_ranks (rs : List Rec) :
    (∀ g ∈ (transformData rs).groups, ∃ g0 ∈ (buildGroups rs).1,
        gmeta g0 = gmeta g ∧ g.tasks = resetOrders (sortByKey orderKey g0.tasks)) ∧
    (transformData rs).ungrouped = resetOrders (sortByKey orderKey (buildGroups rs).2) ∧
    (∀ g ∈ (transformData rs).groups, ∀ i, ∀ hi : i < g.tasks.length,
        getField (g.tasks[i]) "order" = some (JVal.num i)) ∧
    (∀ i, ∀ hi : i < (transformData rs).ungrouped.length,
        getField ((transformData rs).ungrouped[i]) "order" = some (JVal.num i)) ∧
    ((∀ r ∈ rs, groupLink r.fields = none) →
        (transformData rs).groups = [] ∧
        (transformData rs).ungrouped
          = resetOrders (sortByKey orderKey (rs.map (fun r => stripGroupFields r.fields))) ∧
        (transformData rs).ungrouped.length = rs.length) := by
  have hrep : ∀ g ∈ (transformData rs).groups, ∃ g0 ∈ (buildGroups rs).1,
      gmeta g0 = gmeta g ∧ g.tasks = resetOrders (sortByKey orderKey g0.tasks) := by
    intro g hg
    have hg2 : g ∈ discoveredGroups rs := (mem_sortByKey _ _ _).mp hg
    obtain ⟨g0, hg0, rfl⟩ := List.mem_map.mp hg2
    exact ⟨g0, hg0, rfl, rfl⟩
  refine ⟨hrep, rfl, ?_, ?_, ?_⟩
  · intro g hg i hi
    rcases hrep g hg with ⟨g0, hg0, hmeta, htasks⟩
    simp only [htasks] at hi ⊢
    exact getField_resetOrders _ _ hi
  · intro i hi
    exact getField_resetOrders _ _ hi
  · intro h
    have hbg : buildGroups rs = ([], rs.map (fun r => stripGroupFields r.fields)) := by
      rw [buildGroups, foldl_buildGroupsStep_nogroup rs h ([], [])]
      simp
    have hgroups : (transformData rs).groups = [] := by
      simp [transformData, discoveredGroups, hbg, sortByKey]
    have hung : (transformData rs).ungrouped
        = resetOrders (sortByKey orderKey (rs.map (fun r => stripGroupFields r.fields))) := by
      simp [transformData, hbg]
    refine ⟨hgroups, hung, ?_⟩
    rw [hung, resetOrders_length, sortByKey_length, List.length_map]

/-- Witness for C3: on a grouped input, group `gA`'s tasks are its bucket
sorted and re-ranked (orders 0, 1); on a group-free input with order keys 5
and 2, the groups are empty and the two records come back re-ranked. -/
theorem transformData_bucket_sort_ranks_witness :
    demoGroupA ∈ (transformData demoGroupRecs).groups ∧
    (∃ g0 ∈ (buildGroups demoGroupRecs).1,
        gmeta g0 = gmeta demoGroupA ∧
        demoGroupA.tasks = resetOrders (sortByKey orderKey g0.tasks)) ∧
    (∀ i, ∀ hi : i < demoGroupA.tasks.length,
        getField (demoGroupA.tasks[i]) "order" = some (JVal.num i)) ∧
    (∀ r ∈ demoNoGroupRecs, groupLink r.fields = none) ∧
    ((transformData demoNoGroupRecs).groups = [] ∧
     (transformData demoNoGroupRecs).ungrouped
       = resetOrders (sortByKey orderKey
           (demoNoGroupRecs.map (fun r => stripGroupFields r.fields))) ∧
     (transformData demoNoGroupRecs).ungrouped.length = demoNoGroupRecs.length) :=
  ⟨by decide,
   (transformData_bucket_sort_ranks demoGroupRecs).1 demoGroupA (by decide),
   (transformData_bucket_sort_ranks demoGroupRecs).2.2.1 demoGroupA (by decide),
   by decide,
   (transformData_bucket_sort_ranks demoNoGroupRecs).2.2.2.2 (by decide)⟩

/-- C4: the board's groups list is sorted ascending by `group_order` and is
the stable permutation of the groups in first-encounter (discovery) order:
for every order value, the groups carrying it appear exactly in their
discovery order. -/
theorem transformData_groups_sorted_stable (rs : List Rec) :
    List.Pairwise (fun g1 g2 => g1.group_order ≤ g2.group_order) (transformData rs).groups ∧
    ∀ c : Int,
      (transformData rs).groups.filter (fun g => g.group_order = c)
        = (discoveredGroups rs).filter (fun g => g.group_order = c) := by
  constructor
  · exact sortByKey_pairwise (fun g => g.group_order) (discoveredGroups rs)
  · intro c
    exact sortByKey_filter (fun g => g.group_order) (discoveredGroups rs) c

/-! ## Task provenance through the groups map -/

theorem getField_strip_group_keys (fs : Fields) :
    getField (stripGroupFields fs) "task_groups" = none ∧
    getField (stripGroupFields fs) "group_name" = none ∧
    getField (stripGroupFields fs) "group_order" = none := by
  unfold stripGroupFields
  refine ⟨?_, ?_, ?_⟩
  · rw [getField_deleteField_ne _ _ _ (by decide), getField_deleteField_ne _ _ _ (by decide)]
    exact getField_deleteField_same _ _
  · rw [getField_deleteField_ne _ _ _ (by decide)]
    exact getField_deleteField_same _ _
  · exact getField_deleteField_same _ _

theorem insertTask_tasks (gs : List Group) (gid gname : String) (gorder : Int)
    (task : Fields) (g' : Group) (hg' : g' ∈ insertTask gs gid gname gorder task)
    (t : Fields) (ht : t ∈ g'.tasks) :
    (∃ g ∈ gs, t ∈ g.tasks) ∨ t = task := by
  unfold insertTask at hg'
  by_cases hex : gs.any (fun x => x.task_groups = gid) = true
  · rw [if_pos hex] at hg'
    obtain ⟨g, hg, hmap⟩ := List.mem_map.mp hg'
    by_cases hgid : g.task_groups = gid
    · rw [if_pos hgid] at hmap
      subst hmap
      have ht2 : t ∈ g.tasks ++ [task] := ht
      rcases List.mem_append.mp ht2 with h1 | h2
      · exact Or.inl ⟨g, hg, h1⟩
      · exact Or.inr (by simpa using h2)
    · rw [if_neg hgid] at hmap
      subst hmap
      exact Or.inl ⟨g, hg, ht⟩
  · rw [if_neg hex] at hg'
    rcases List.mem_append.mp hg' with h1 | h2
    · exact Or.inl ⟨g', h1, ht⟩
    · have hg'' : g' = ⟨gid, gname, gorder, [task]⟩ := by simpa using h2
      subst hg''
      have ht2 : t ∈ [task] := ht
      exact Or.inr (by simpa using ht2)

theorem buildGroups_task_provenance (rs : List Rec) :
    ∀ (acc : List Group × List Fields) (t : Fields),
      (t ∈ (rs.foldl buildGroupsStep acc).2 ∨
        ∃ g ∈ (rs.foldl buildGroupsStep acc).1, t ∈ g.tasks) →
      (t ∈ acc.2 ∨ ∃ g ∈ acc.1, t ∈ g.tasks) ∨
        ∃ r ∈ rs, t = stripGroupFields r.fields := by
  induction rs with
  | nil =>
      intro acc t h
      exact Or.inl h
  | cons r rs' ih =>
      intro acc t h
      rw [List.foldl_cons] at h
      rcases ih (buildGroupsStep acc r) t h with h' | ⟨r', hr', ht⟩
      · cases hlink : groupLink r.fields with
        | none =>
            rcases h' with hu | hgroup
            · have hu2 : t ∈ acc.2 ++ [stripGroupFields r.fields] := by
                simpa [buildGroupsStep, hlink] using hu
              rcases List.mem_append.mp hu2 with h1 | h2
              · exact Or.inl (Or.inl h1)
              · exact Or.inr ⟨r, by simp, by simpa using h2⟩
            · exact Or.inl (Or.inr (by simpa [buildGroupsStep, hlink] using hgroup))
        | some gid =>
            rcases h' with hu | ⟨g', hg', htg⟩
            · exact Or.inl (Or.inl (by simpa [buildGroupsStep, hlink] using hu))
            · have hg'' : g' ∈ insertTask acc.1 gid (groupNameOf r.fields)
                  (groupOrderOf r.fields) (stripGroupFields r.fields) := by
                simpa [buildGroupsStep, hlink] using hg'
              rcases insertTask_tasks _ _ _ _ _ _ hg'' t htg with ⟨g0, hg0, ht0⟩ | hteq
              · exact Or.inl (Or.inr ⟨g0, hg0, ht0⟩)
              · exact Or.inr ⟨r, by simp, hteq⟩
      · exact Or.inr ⟨r', List.mem_cons_of_mem _ hr', ht⟩

/-- C5: every task object in the board's output — inside a group or in the
ungrouped bucket — carries none of the group-linkage fields, and is exactly
some source record's field set with the three linkage fields deleted and
only `order` rewritten (to some dense rank). -/
theorem transformData_tasks_strip_carryover (rs : List Rec) (t : Fields)
    (ht : t ∈ boardTasks (transformData rs)) :
    getField t "task_groups" = none ∧
    getField t "group_name" = none ∧
    getField t "group_order" = none ∧
    ∃ r ∈ rs, ∃ k : Nat, t = setField (stripGroupFields r.fields) "order" (JVal.num k) := by
  have hprov : ∃ r ∈ rs, ∃ k : Nat,
      t = setField (stripGroupFields r.fields) "order" (JVal.num k) := by
    unfold boardTasks at ht
    rcases List.mem_append.mp ht with hgr | hun
    · obtain ⟨ts, hts, htmem⟩ := List.mem_flatten.mp hgr
      obtain ⟨g, hgmem, rfl⟩ := List.mem_map.mp hts
      have hg2 : g ∈ discoveredGroups rs := (mem_sortByKey _ _ _).mp hgmem
      obtain ⟨g0, hg0, rfl⟩ := List.mem_map.mp hg2
      obtain ⟨t0, ht0, k, rfl⟩ := mem_resetOrders _ _ htmem
      have ht0' : t0 ∈ g0.tasks := (mem_sortByKey _ _ _).mp ht0
      rcases buildGroups_task_provenance rs ([], []) t0 (Or.inr ⟨g0, hg0, ht0'⟩) with
        hacc | ⟨r, hr, rfl⟩
      · rcases hacc with h1 | ⟨g1, hg1, _⟩
        · exact absurd h1 (List.not_mem_nil _)
        · exact absurd hg1 (List.not_mem_nil _)
      · exact ⟨r, hr, k, rfl⟩
    · obtain ⟨t0, ht0, k, rfl⟩ := mem_resetOrders _ _ hun
      have ht0' : t0 ∈ (buildGroups rs).2 := (mem_sortByKey _ _ _).mp ht0
      rcases buildGroups_task_provenance rs ([], []) t0 (Or.inl ht0') with
        hacc | ⟨r, hr, rfl⟩
      · rcases hacc with h1 | ⟨g1, hg1, _⟩
        · exact absurd h1 (List.not_mem_nil _)
        · exact absurd hg1 (List.not_mem_nil _)
      · exact ⟨r, hr, k, rfl⟩
  obtain ⟨r, hr, k, rfl⟩ := hprov
  obtain ⟨h1, h2, h3⟩ := getField_strip_group_keys r.fields
  refine ⟨?_, ?_, ?_, ⟨r, hr, k, rfl⟩⟩
  · rw [getField_setField_ne _ _ _ _ (by decide)]
    exact h1
  · rw [getField_setField_ne _ _ _ _ (by decide)]
    exact h2
  · rw [getField_setField_ne _ _ _ _ (by decide)]
    exact h3

/-- Witness for C5 at a concrete grouped input: the board task coming from
record `t2` carries no group-linkage fields and is its source record's
stripped field set with `order` rewritten. -/
theorem transformData_tasks_strip_carryover_witness :
    ([("title", JVal.str "t2"), ("order", JVal.num 0)] : Fields)
        ∈ boardTasks (transformData demoGroupRecs) ∧
    (getField [("title", JVal.str "t2"), ("order", JVal.num 0)] "task_groups" = none ∧
     getField [("title", JVal.str "t2"), ("order", JVal.num 0)] "group_name" = none ∧
     getField [("title", JVal.str "t2"), ("order", JVal.num 0)] "group_order" = none ∧
     ∃ r ∈ demoGroupRecs, ∃ k : Nat,
       ([("title", JVal.str "t2"), ("order", JVal.num 0)] : Fields)
         = setField (stripGroupFields r.fields) "order" (JVal.num k)) :=
  ⟨by decide,
   transformData_tasks_strip_carryover demoGroupRecs
     [("title", JVal.str "t2"), ("order", JVal.num 0)] (by decide)⟩

/-! ## Group metadata provenance -/

theorem insertTask_meta_source (gs : List Group) (gid gname : String) (gorder : Int)
    (task : Fields) (g' : Group) (h : g' ∈ insertTask gs gid gname gorder task) :
    (∃ g ∈ gs, gmeta g = gmeta g') ∨
    (gmeta g' = (gid, gname, gorder) ∧ ∀ g ∈ gs, g.task_groups ≠ gid) := by
  unfold insertTask at h
  by_cases hex : gs.any (fun g => g.task_groups = gid) = true
  · rw [if_pos hex] at h
    obtain ⟨g, hg, hmap⟩ := List.mem_map.mp h
    left
    refine ⟨g, hg, ?_⟩
    by_cases hgid : g.task_groups = gid
    · rw [if_pos hgid] at hmap
      rw [← hmap]
      rfl
    · rw [if_neg hgid] at hmap
      rw [hmap]
  · rw [if_neg hex] at h
    rcases List.mem_append.mp h with hg | hg
    · exact Or.inl ⟨g', hg, rfl⟩
    · right
      have hg' : g' = ⟨gid, gname, gorder, [task]⟩ := by simpa using hg
      subst hg'
      refine ⟨rfl, ?_⟩
      intro g hgmem heq
      apply hex
      rw [List.any_eq_true]
      exact ⟨g, hgmem, by simp [heq]⟩

theorem insertTask_meta_preserved (gs : List Group) (gid gname : String) (gorder : Int)
    (task : Fields) (g : Group) (hg : g ∈ gs) :
    ∃ g' ∈ insertTask gs gid gname gorder task, gmeta g' = gmeta g := by
  unfold insertTask
  by_cases hex : gs.any (fun x => x.task_groups = gid) = true
  · rw [if_pos hex]
    by_cases hgid : g.task_groups = gid
    · refine ⟨⟨g.task_groups, g.group_name, g.group_order, g.tasks ++ [task]⟩, ?_, rfl⟩
      refine List.mem_map.mpr ⟨g, hg, ?_⟩
      rw [if_pos hgid]
    · refine ⟨g, ?_, rfl⟩
      refine List.mem_map.mpr ⟨g, hg, ?_⟩
      rw [if_neg hgid]
  · rw [if_neg hex]
    exact ⟨g, List.mem_append_left _ hg, rfl⟩

theorem insertTask_gid_mem (gs : List Group) (gid gname : String) (gorder : Int)
    (task : Fields) :
    ∃ g' ∈ insertTask gs gid gname gorder task, g'.task_groups = gid := by
  unfold insertTask
  by_cases hex : gs.any (fun x => x.task_groups = gid) = true
  · rw [if_pos hex]
    obtain ⟨g, hg, hp⟩ := List.any_eq_true.mp hex
    have hgid : g.task_groups = gid := by simpa using hp
    refine ⟨⟨g.task_groups, g.group_name, g.group_order, g.tasks ++ [task]⟩, ?_, hgid⟩
    refine List.mem_map.mpr ⟨g, hg, ?_⟩
    rw [if_pos hgid]
  · rw [if_neg hex]
    exact ⟨⟨gid, gname, gorder, [task]⟩, List.mem_append_right _ (by simp), rfl⟩

theorem buildGroups_meta_first (rs : List Rec) :
    ∀ (acc : List Group × List Fields) (g : Group),
      g ∈ (rs.foldl buildGroupsStep acc).1 →
      (∃ g0 ∈ acc.1, gmeta g0 = gmeta g) ∨
      ((∀ g0 ∈ acc.1, g0.task_groups ≠ g.task_groups) ∧
        ∃ r, rs.find? (fun r => decide (groupLink r.fields = some g.task_groups)) = some r ∧
          g.group_name = groupNameOf r.fields ∧ g.group_order = groupOrderOf r.fields) := by
  induction rs with
  | nil =>
      intro acc g hg
      exact Or.inl ⟨g, hg, rfl⟩
  | cons r rs' ih =>
      intro acc g hg
      rw [List.foldl_cons] at hg
      rcases ih (buildGroupsStep acc r) g hg with ⟨g0, hg0, hmeta⟩ |
        ⟨hfresh, r', hfind, hname, horder⟩
      · cases hlink : groupLink r.fields with
        | none =>
            have hg0' : g0 ∈ acc.1 := by
              simpa [buildGroupsStep, hlink] using hg0
            exact Or.inl ⟨g0, hg0', hmeta⟩
        | some gid =>
            have hg0' : g0 ∈ insertTask acc.1 gid (groupNameOf r.fields)
                (groupOrderOf r.fields) (stripGroupFields r.fields) := by
              simpa [buildGroupsStep, hlink] using hg0
            rcases insertTask_meta_source _ _ _ _ _ _ hg0' with ⟨g1, hg1, hmeta1⟩ |
              ⟨hnew, hfreshacc⟩
            · exact Or.inl ⟨g1, hg1, hmeta1.trans hmeta⟩
            · right
              have hgeq : gmeta g = (gid, groupNameOf r.fields, groupOrderOf r.fields) := by
                rw [← hmeta, hnew]
              obtain ⟨h1, h2, h3⟩ : g.task_groups = gid ∧
                  g.group_name = groupNameOf r.fields ∧
                  g.group_order = groupOrderOf r.fields := by
                simpa [gmeta, Prod.mk.injEq] using hgeq
              constructor
              · intro g1 hg1 hcontra
                exact hfreshacc g1 hg1 (by rw [hcontra, h1])
              · refine ⟨r, ?_, h2, h3⟩
                exact List.find?_cons_of_pos _ (by simp [hlink, h1])
      · right
        have hpres : ∀ g0 ∈ acc.1, g0.task_groups ≠ g.task_groups := by
          intro g0 hg0 hcontra
          cases hlink : groupLink r.fields with
          | none =>
              have hg0' : g0 ∈ (buildGroupsStep acc r).1 := by
                simpa [buildGroupsStep, hlink] using hg0
              exact hfresh g0 hg0' hcontra
          | some gid =>
              obtain ⟨g1, hg1, hmeta1⟩ := insertTask_meta_preserved acc.1 gid
                (groupNameOf r.fields) (groupOrderOf r.fields) (stripGroupFields r.fields) g0 hg0
              have hg1' : g1 ∈ (buildGroupsStep acc r).1 := by
                simpa [buildGroupsStep, hlink] using hg1
              have htg : g1.task_groups = g0.task_groups := congrArg Prod.fst hmeta1
              exact hfresh g1 hg1' (htg.trans hcontra)
        refine ⟨hpres, r', ?_, hname, horder⟩
        have hpredr : decide (groupLink r.fields = some g.task_groups) = false := by
          simp only [decide_eq_false_iff_not]
          intro hcontra
          cases hlink : groupLink r.fields with
          | none =>
              rw [hlink] at hcontra
              exact Option.noConfusion hcontra
          | some gid =>
              rw [hlink] at hcontra
              have hgid : gid = g.task_groups := Option.some.inj hcontra
              obtain ⟨g0, hg0, hgid0⟩ := insertTask_gid_mem acc.1 gid
                (groupNameOf r.fields) (groupOrderOf r.fields) (stripGroupFields r.fields)
              have hg0' : g0 ∈ (buildGroupsStep acc r).1 := by
                simpa [buildGroupsStep, hlink] using hg0
              exact hfresh g0 hg0' (by rw [hgid0, hgid])
        simp only [List.find?, hpredr]
        exact hfind

/-- C10: every group in the board output takes its `group_name` and
`group_order` from the first record in input order that links to that group
(via the `groupNameOf` / `groupOrderOf` extractors, which supply the
defaults "Unnamed Group" and 0 when the denormalized values are absent);
differing values carried on later records of the same group are ignored. -/
theorem transformData_group_meta_from_first (rs : List Rec) (g : Group)
    (hg : g ∈ (transformData rs).groups) :
    ∃ r, rs.find? (fun r => decide (groupLink r.fields = some g.task_groups)) = some r ∧
      g.group_name = groupNameOf r.fields ∧ g.group_order = groupOrderOf r.fields := by
  have hg2 : g ∈ discoveredGroups rs := (mem_sortByKey _ _ _).mp hg
  obtain ⟨g0, hg0, rfl⟩ := List.mem_map.mp hg2
  rcases buildGroups_meta_first rs ([], []) g0 hg0 with ⟨g1, hg1, _⟩ |
    ⟨_, r, hfind, hname, horder⟩
  · exact absurd hg1 (List.not_mem_nil _)
  · exact ⟨r, hfind, hname, horder⟩

/-- Witness for C10: in an input where the second record of group `gA`
carries a different denormalized name and order, the output group keeps the
first record's name "Alpha" and order 5, found by `find?`. -/
theorem transformData_group_meta_from_first_witness :
    (⟨"gA", "Alpha", 5,
        [[("title", JVal.str "t3"), ("order", JVal.num 0)],
         [("title", JVal.str "t1"), ("order", JVal.num 1)]]⟩ : Group)
      ∈ (transformData demoGroupRecs).groups ∧
    ∃ r, demoGroupRecs.find?
        (fun rec => decide (groupLink rec.fields = some "gA")) = some r ∧
      "Alpha" = groupNameOf r.fields ∧ (5 : Int) = groupOrderOf r.fields :=
  ⟨by decide,
   transformData_group_meta_from_first demoGroupRecs
     ⟨"gA", "Alpha", 5,
        [[("title", JVal.str "t3"), ("order", JVal.num 0)],
         [("title", JVal.str "t1"), ("order", JVal.num 1)]]⟩ (by decide)⟩

end ATS
